import Mathlib

/-!
Verification development for `src/dataset/generate_data.py`, a one-shot batch
generator of three linked tables (users, sessions, events).

Modelling conventions.  Every call to a library random primitive is fed from an
explicit oracle stream, indexed so that distinct calls consume distinct stream
positions: `random.randint(a, b)` becomes `pyRandint a b k` (always in `[a, b]`),
`random.choice` / a single weighted `np.random.choice` becomes `pyChoice l d k`
(an element of `l` whenever `l` is nonempty; weights affect only which element
is drawn, which the oracle abstracts), `random.uniform(0, d)` becomes `u * d`
for a stream value `u` assumed in `[0, 1)`, `np.random.exponential` becomes an
unconstrained rational stream value, and `np.random.poisson` a natural-number
stream value.  Wall-clock instants (`datetime.now()`) are rational numbers of
seconds and are explicit parameters named `now`; `.date()` is the floor of the
day index.  Floating point arithmetic is idealised as exact rational
arithmetic.
-/

namespace GenData

/-- Configuration constants of the script. -/
def RANDOM_SEED : Nat := 42

def NUM_USERS : Nat := 10000

def NUM_SESSIONS : Nat := 100000

def NUM_EVENTS : Nat := 500000

def NUM_DAYS : Nat := 90

/-- `EVENT_TYPE_DISTRIBUTION` dict: label, probability. -/
def EVENT_TYPE_DISTRIBUTION : List (String × ℚ) :=
  [("page_view", 50/100), ("click", 25/100), ("add_to_cart", 10/100),
   ("checkout", 8/100), ("purchase", 5/100), ("sign_up", 2/100)]

def DEVICE_TYPES : List String := ["desktop", "mobile", "tablet"]

def DEVICE_DISTRIBUTION : List (String × ℚ) :=
  [("desktop", 40/100), ("mobile", 45/100), ("tablet", 15/100)]

def COUNTRIES : List String :=
  ["US", "JP", "GB", "DE", "FR", "CA", "AU", "SG", "IN", "BR"]

def COUNTRY_DISTRIBUTION : List (String × ℚ) :=
  [("US", 30/100), ("JP", 25/100), ("GB", 15/100), ("DE", 10/100),
   ("FR", 5/100), ("CA", 5/100), ("AU", 3/100), ("SG", 3/100),
   ("IN", 2/100), ("BR", 2/100)]

def PLAN_TYPES : List String := ["free", "premium"]

def PLAN_DISTRIBUTION : List (String × ℚ) := [("free", 85/100), ("premium", 15/100)]

def PAGE_URLS : List String :=
  ["/home", "/products", "/products/1", "/products/2", "/products/3", "/cart",
   "/checkout", "/about", "/contact", "/blog", "/blog/post-1", "/blog/post-2"]

/-- Python `random.randint(a, b)` (inclusive bounds); `k` is the raw oracle draw. -/
def pyRandint (a b : Int) (k : Nat) : Int :=
  a + ((k % (b - a + 1).toNat : Nat) : Int)

/-- Python `random.choice(l)`, or a single (possibly weighted) `np.random.choice`
from the list `l`: an element of `l` selected by the raw oracle draw `k`
(`d` is a dummy default that is never reached for nonempty `l`). -/
def pyChoice {α : Type} (l : List α) (d : α) (k : Nat) : α :=
  l.getD (k % l.length) d

/-- numpy `astype(int)` / Python `int(...)`: truncation toward zero. -/
def pyTrunc (q : ℚ) : Int := if 0 ≤ q then ⌊q⌋ else ⌈q⌉

/-- `datetime.date()` of an absolute time measured in seconds: the day index. -/
def dateOf (t : ℚ) : Int := ⌊t / 86400⌋

/-- Row of `users.csv` (dict keys USER_ID, SIGNUP_DATE, COUNTRY, PLAN_TYPE, IS_ACTIVE). -/
structure User where
  user_id : Nat
  signup_date : Int
  country : String
  plan_type : String
  is_active : Bool
  deriving DecidableEq

/-- Oracle streams consumed by `generate_users` (one position per user index). -/
structure UserOracle where
  signupK : Nat → Nat
  countryK : Nat → Nat
  planK : Nat → Nat
  activeK : Nat → Nat

/-- The user record produced for index `i` (0-based; USER_ID is `i + 1`). -/
def userAt (o : UserOracle) (now : ℚ) (i : Nat) : User :=
  { user_id := i + 1
    signup_date := dateOf (now - 86400 * (pyRandint 0 180 (o.signupK i) : ℚ))
    country := pyChoice (COUNTRY_DISTRIBUTION.map Prod.fst) "US" (o.countryK i)
    plan_type := pyChoice (PLAN_DISTRIBUTION.map Prod.fst) "free" (o.planK i)
    is_active := pyChoice [true, false] true (o.activeK i) }

/-- `generate_users`: exactly `NUM_USERS` rows, USER_ID running `1..NUM_USERS`. -/
def generate_users (o : UserOracle) (now : ℚ) : List User :=
  (List.range NUM_USERS).map (userAt o now)

/-- Row of `sessions.csv`. -/
structure Session where
  session_id : String
  user_id : Nat
  session_start : ℚ
  session_end : ℚ
  page_views : Int
  device_type : String
  deriving DecidableEq

/-- Oracle streams consumed by `generate_sessions` (one position per session
index; `sidK i j` is the draw for character `j` of session `i`'s id token). -/
structure SessOracle where
  userK : Nat → Nat
  dayK : Nat → Nat
  hourK : Nat → Nat
  minuteK : Nat → Nat
  secondK : Nat → Nat
  durK : Nat → Nat
  expDraw : Nat → ℚ
  devK : Nat → Nat
  sidK : Nat → Nat → Nat

/-- Character pool of `generate_session_id`: ascii lowercase plus digits. -/
def SESSION_ID_CHARSET : List Char := "abcdefghijklmnopqrstuvwxyz0123456789".toList

/-- `generate_session_id`: the fixed tag followed by 16 random pool characters. -/
def generate_session_id (k : Nat → Nat) : String :=
  "session_" ++ String.mk ((List.range 16).map (fun j => pyChoice SESSION_ID_CHARSET 'a' (k j)))

/-- The session record produced for index `i` of `generate_sessions`. -/
def sessionAt (users : List User) (o : SessOracle) (now : ℚ) (i : Nat) : Session :=
  let base_date : ℚ := now - (NUM_DAYS : ℚ) * 86400
  let session_start : ℚ := base_date
    + 86400 * (pyRandint 0 ((NUM_DAYS : Int) - 1) (o.dayK i) : ℚ)
    + 3600 * (pyRandint 0 23 (o.hourK i) : ℚ)
    + 60 * (pyRandint 0 59 (o.minuteK i) : ℚ)
    + (pyRandint 0 59 (o.secondK i) : ℚ)
  let session_duration : ℚ := 60 * (pyRandint 1 120 (o.durK i) : ℚ)
  { session_id := generate_session_id (o.sidK i)
    user_id := pyChoice (users.map User.user_id) 0 (o.userK i)
    session_start := session_start
    session_end := session_start + session_duration
    page_views := max 1 (pyTrunc (o.expDraw i) + 1)
    device_type := pyChoice (DEVICE_DISTRIBUTION.map Prod.fst) "desktop" (o.devK i) }

/-- `generate_sessions`: `NUM_SESSIONS` rows in index order. -/
def generate_sessions (users : List User) (o : SessOracle) (now : ℚ) : List Session :=
  (List.range NUM_SESSIONS).map (sessionAt users o now)

/-- Row of `raw_events.csv`. -/
structure Event where
  event_id : Nat
  user_id : Nat
  session_id : String
  event_type : String
  page_url : String
  event_timestamp : ℚ
  device_type : String
  country : String
  deriving DecidableEq

/-- Oracle streams consumed by `generate_events`: `poisK` is indexed by the
session's position, the per-event streams by the running event id. -/
structure EventOracle where
  poisK : Nat → Nat
  uK : Nat → ℚ
  etK : Nat → Nat
  pgK : Nat → Nat

/-- `dict(zip(users['USER_ID'], users['COUNTRY']))`: on duplicate keys the last
occurrence wins, hence the search over the reversed list. -/
def user_country_map (users : List User) (uid : Nat) : Option String :=
  (users.reverse.find? (fun u => u.user_id == uid)).map User.country

/-- The event record appended for session `s` with running event id `eid`. -/
def mkEvent (users : List User) (o : EventOracle) (s : Session) (eid : Nat) : Event :=
  let session_duration : ℚ := s.session_end - s.session_start
  let time_offset : ℚ := o.uK eid * session_duration
  { event_id := eid
    user_id := s.user_id
    session_id := s.session_id
    event_type := pyChoice (EVENT_TYPE_DISTRIBUTION.map Prod.fst) "page_view" (o.etK eid)
    page_url := pyChoice PAGE_URLS "/home" (o.pgK eid)
    event_timestamp := s.session_start + time_offset
    device_type := s.device_type
    country := (user_country_map users s.user_id).getD "" }

/-- `num_events_in_session = session['PAGE_VIEWS'] + np.random.poisson(lam=2)`;
Python's `range` over a non-positive count is empty, hence `Int.toNat`. -/
def numEventsInSession (o : EventOracle) (idx : Nat) (s : Session) : Nat :=
  (s.page_views + (o.poisK idx : Int)).toNat

/-- Inner per-event loop: append an event, advance the id counter, and break as
soon as the counter exceeds `NUM_EVENTS`.  Returns the appended events together
with the final counter value. -/
def innerLoop (mk : Nat → Event) : Nat → Nat → List Event × Nat
  | eid, 0 => ([], eid)
  | eid, n + 1 =>
    let ev := mk eid
    if NUM_EVENTS < eid + 1 then ([ev], eid + 1)
    else
      let r := innerLoop mk (eid + 1) n
      (ev :: r.1, r.2)

/-- Outer per-session loop of `generate_events`: after each session's inner
loop, break out entirely once the counter exceeds `NUM_EVENTS`. -/
def eventLoop (users : List User) (o : EventOracle) : List Session → Nat → Nat → List Event
  | [], _, _ => []
  | s :: rest, idx, eid =>
    let r := innerLoop (mkEvent users o s) eid (numEventsInSession o idx s)
    if NUM_EVENTS < r.2 then r.1
    else r.1 ++ eventLoop users o rest (idx + 1) r.2

/-- `generate_events`: run the nested loops from event id 1 and session index 0,
then hard-truncate the collected rows to `NUM_EVENTS` (`events_data[:NUM_EVENTS]`). -/
def generate_events (users : List User) (sessions : List Session) (o : EventOracle) : List Event :=
  (eventLoop users o sessions 0 1).take NUM_EVENTS

/-- Cumulative per-session event counts (`PAGE_VIEWS` plus Poisson jitter)
summed over the given sessions, the session at the head having position `idx`. -/
def plannedFrom (o : EventOracle) : Nat → List Session → Nat
  | _, [] => 0
  | idx, s :: rest => numEventsInSession o idx s + plannedFrom o (idx + 1) rest

/-- Untruncated per-session decomposition of event generation, following the
spec's description: sessions in their generated order, each contributing a
block of `page_view_count + jitter` events with sequentially assigned ids. -/
def eventFlatSpec (users : List User) (o : EventOracle) : List Session → Nat → Nat → List Event
  | [], _, _ => []
  | s :: rest, idx, eid =>
    (List.range (numEventsInSession o idx s)).map (fun j => mkEvent users o s (eid + j))
      ++ eventFlatSpec users o rest (idx + 1) (eid + numEventsInSession o idx s)

/-- Modelled from the spec: "Draw page_view_count from a right-skewed
(exponential-shaped) distribution with mean ≈3, floor it to an integer, and
enforce a minimum of 1 via `max(1, ...)`" — the claimed page-view formula as a
function of the raw exponential draw, for comparison with `sessionAt`. -/
def spec_page_views (q : ℚ) : Int := max 1 (pyTrunc q)

/-- All-zero user oracle, used to instantiate universally quantified results. -/
def uo0 : UserOracle := ⟨fun _ => 0, fun _ => 0, fun _ => 0, fun _ => 0⟩

/-- All-zero session oracle. -/
def so0 : SessOracle :=
  ⟨fun _ => 0, fun _ => 0, fun _ => 0, fun _ => 0, fun _ => 0, fun _ => 0,
   fun _ => 0, fun _ => 0, fun _ _ => 0⟩

/-- All-zero event oracle. -/
def eo0 : EventOracle := ⟨fun _ => 0, fun _ => 0, fun _ => 0, fun _ => 0⟩

/-- Session oracle whose exponential stream constantly yields `5/2`. -/
def soCe : SessOracle := { so0 with expDraw := fun _ => (5 : ℚ)/2 }

/-- A concrete one-element user population. -/
def u1 : User := ⟨1, 0, "US", "free", true⟩

/-- A concrete session referencing `u1`, lasting 60 seconds, one page view. -/
def s1 : Session := ⟨"session_x", 1, 0, 60, 1, "desktop"⟩

/-! ### Basic lemmas about the modelled random primitives -/

theorem pyRandint_bounds (a b : Int) (k : Nat) (h : a ≤ b) :
    a ≤ pyRandint a b k ∧ pyRandint a b k ≤ b := by
  unfold pyRandint
  have hm : 0 < (b - a + 1).toNat := by omega
  have := Nat.mod_lt k hm
  omega

theorem pyChoice_mem {α : Type} (l : List α) (d : α) (k : Nat) (h : l ≠ []) :
    pyChoice l d k ∈ l := by
  unfold pyChoice
  have hl : 0 < l.length := List.length_pos.mpr h
  have hk : k % l.length < l.length := Nat.mod_lt k hl
  rw [List.getD_eq_getElem l d hk]
  exact List.getElem_mem hk

theorem getElem?_range_of_lt {n i : Nat} (h : i < n) : (List.range n)[i]? = some i := by
  have hl : i < (List.range n).length := by simpa [List.length_range] using h
  rw [List.getElem?_eq_getElem hl, List.getElem_range]

/-! ### Structural row lemmas for the generated tables -/

theorem generate_users_getElem? (o : UserOracle) (now : ℚ) (i : Nat) (h : i < NUM_USERS) :
    (generate_users o now)[i]? = some (userAt o now i) := by
  rw [generate_users, List.getElem?_map, getElem?_range_of_lt h]
  rfl

theorem generate_sessions_getElem? (users : List User) (o : SessOracle) (now : ℚ)
    (i : Nat) (h : i < NUM_SESSIONS) :
    (generate_sessions users o now)[i]? = some (sessionAt users o now i) := by
  rw [generate_sessions, List.getElem?_map, getElem?_range_of_lt h]
  rfl

/-- C7: the USERS table has exactly `NUM_USERS` rows whose USER_ID values are
the contiguous sequence `1, 2, ..., NUM_USERS` with no duplicates. -/
theorem user_ids_contiguous (o : UserOracle) (now : ℚ) :
    (generate_users o now).length = NUM_USERS ∧
    (generate_users o now).map User.user_id = List.range' 1 NUM_USERS ∧
    ((generate_users o now).map User.user_id).Nodup := by
  have hids : (generate_users o now).map User.user_id = List.range' 1 NUM_USERS := by
    rw [generate_users, List.map_map, List.range'_eq_map_range]
    exact List.map_congr_left (fun a _ => by simp [Function.comp, userAt, Nat.add_comm])
  refine ⟨by simp [generate_users], hids, ?_⟩
  rw [hids]
  exact List.nodup_range' 1 NUM_USERS

/-- C4: every generated session's USER_ID is drawn (via `random.choice`) from
the materialised user id column, so it is a member of that id set whenever the
user population is nonempty — no orphan sessions. -/
theorem session_user_id_member (users : List User) (o : SessOracle) (now : ℚ)
    (hu : users ≠ []) (i : Nat) (hi : i < NUM_SESSIONS) (s : Session)
    (hs : (generate_sessions users o now)[i]? = some s) :
    s.user_id ∈ users.map User.user_id := by
  rw [generate_sessions_getElem? users o now i hi] at hs
  obtain rfl := Option.some.inj hs
  have hmap : users.map User.user_id ≠ [] := by simp [hu]
  simpa [sessionAt] using pyChoice_mem (users.map User.user_id) 0 (o.userK i) hmap

/-- Witness for C4 at the concrete input: the one-user population `[u1]`, the
all-zero session oracle, and row 0. -/
theorem session_user_id_member_witness :
    (sessionAt [u1] so0 0 0).user_id ∈ ([u1].map User.user_id) :=
  session_user_id_member [u1] so0 0 (by decide) 0 (by decide) (sessionAt [u1] so0 0 0)
    (generate_sessions_getElem? [u1] so0 0 0 (by decide))

/-- C6: every generated session satisfies `end_time > start_time`, with the
duration `end_time - start_time` between 1 minute (60 s) and 120 minutes
(7200 s), since it is `60 * randint(1, 120)` seconds. -/
theorem session_duration_bounds (users : List User) (o : SessOracle) (now : ℚ)
    (i : Nat) (hi : i < NUM_SESSIONS) (s : Session)
    (hs : (generate_sessions users o now)[i]? = some s) :
    s.session_start < s.session_end ∧
    (60 : ℚ) ≤ s.session_end - s.session_start ∧
    s.session_end - s.session_start ≤ 7200 := by
  rw [generate_sessions_getElem? users o now i hi] at hs
  obtain rfl := Option.some.inj hs
  obtain ⟨h1, h2⟩ := pyRandint_bounds 1 120 (o.durK i) (by norm_num)
  have h1q : (1 : ℚ) ≤ ((pyRandint 1 120 (o.durK i) : Int) : ℚ) := by exact_mod_cast h1
  have h2q : ((pyRandint 1 120 (o.durK i) : Int) : ℚ) ≤ 120 := by exact_mod_cast h2
  simp only [sessionAt]
  refine ⟨by linarith, by ring_nf; linarith, by ring_nf; linarith⟩

/-- Witness for C6 at the concrete input: empty user list, all-zero session
oracle, reference time 0, row 0. -/
theorem session_duration_bounds_witness :
    (sessionAt [] so0 0 0).session_start < (sessionAt [] so0 0 0).session_end ∧
    (60 : ℚ) ≤ (sessionAt [] so0 0 0).session_end - (sessionAt [] so0 0 0).session_start ∧
    (sessionAt [] so0 0 0).session_end - (sessionAt [] so0 0 0).session_start ≤ 7200 :=
  session_duration_bounds [] so0 0 0 (by decide) (sessionAt [] so0 0 0)
    (generate_sessions_getElem? [] so0 0 0 (by decide))

/-- C8, amended: PAGE_VIEWS of every generated session equals
`max 1 (trunc(exponential draw) + 1)` — the draw is truncated to an integer,
then incremented by one, then clamped to a minimum of 1 — hence it is always a
positive integer. -/
theorem page_views_formula (users : List User) (o : SessOracle) (now : ℚ)
    (i : Nat) (hi : i < NUM_SESSIONS) (s : Session)
    (hs : (generate_sessions users o now)[i]? = some s) :
    s.page_views = max 1 (pyTrunc (o.expDraw i) + 1) ∧ 1 ≤ s.page_views := by
  rw [generate_sessions_getElem? users o now i hi] at hs
  obtain rfl := Option.some.inj hs
  exact ⟨by simp [sessionAt], by simp [sessionAt]⟩

/-- Witness for C8's amended theorem at the concrete input: empty user list,
all-zero session oracle, reference time 0, row 0. -/
theorem page_views_formula_witness :
    (sessionAt [] so0 0 0).page_views = max 1 (pyTrunc (so0.expDraw 0) + 1) ∧
    1 ≤ (sessionAt [] so0 0 0).page_views :=
  page_views_formula [] so0 0 0 (by decide) (sessionAt [] so0 0 0)
    (generate_sessions_getElem? [] so0 0 0 (by decide))

/-- C8, counterexample: with the exponential draw `5/2`, the code (which adds 1
after truncating) produces PAGE_VIEWS = 3, while the claimed formula "floor the
draw, then `max(1, ...)`" yields 2; so the generated value disagrees with the
claimed one. -/
theorem page_views_not_spec_formula :
    ((generate_sessions [] soCe 0)[0]?).map Session.page_views = some 3 ∧
    spec_page_views ((5 : ℚ)/2) = 2 ∧
    ((generate_sessions [] soCe 0)[0]?).map Session.page_views ≠
      some (spec_page_views ((5 : ℚ)/2)) := by
  rw [generate_sessions_getElem? [] soCe 0 0 (by decide)]
  have h3 : (sessionAt [] soCe 0 0).page_views = 3 := by
    simp only [sessionAt, soCe, so0, pyTrunc]
    norm_num
  have h2 : spec_page_views ((5 : ℚ)/2) = 2 := by
    simp only [spec_page_views, pyTrunc]
    norm_num
  refine ⟨by simp [h3], h2, by simp [h3, h2]⟩

/-! ### Determinism: the run is a function of the consumed draws and the clock -/

theorem generate_users_congr (o₁ o₂ : UserOracle) (now : ℚ)
    (h : ∀ i < NUM_USERS, o₁.signupK i = o₂.signupK i ∧ o₁.countryK i = o₂.countryK i ∧
      o₁.planK i = o₂.planK i ∧ o₁.activeK i = o₂.activeK i) :
    generate_users o₁ now = generate_users o₂ now := by
  unfold generate_users
  refine List.map_congr_left (fun i hi => ?_)
  obtain ⟨h1, h2, h3, h4⟩ := h i (List.mem_range.mp hi)
  simp [userAt, h1, h2, h3, h4]

theorem generate_session_id_congr (k₁ k₂ : Nat → Nat) (h : ∀ j < 16, k₁ j = k₂ j) :
    generate_session_id k₁ = generate_session_id k₂ := by
  unfold generate_session_id
  refine congrArg _ (congrArg _ (List.map_congr_left fun j hj => ?_))
  rw [h j (List.mem_range.mp hj)]

theorem generate_sessions_congr (users : List User) (o₁ o₂ : SessOracle) (now : ℚ)
    (h : ∀ i < NUM_SESSIONS, o₁.userK i = o₂.userK i ∧ o₁.dayK i = o₂.dayK i ∧
      o₁.hourK i = o₂.hourK i ∧ o₁.minuteK i = o₂.minuteK i ∧ o₁.secondK i = o₂.secondK i ∧
      o₁.durK i = o₂.durK i ∧ o₁.expDraw i = o₂.expDraw i ∧ o₁.devK i = o₂.devK i ∧
      ∀ j < 16, o₁.sidK i j = o₂.sidK i j) :
    generate_sessions users o₁ now = generate_sessions users o₂ now := by
  unfold generate_sessions
  refine List.map_congr_left (fun i hi => ?_)
  obtain ⟨h1, h2, h3, h4, h5, h6, h7, h8, h9⟩ := h i (List.mem_range.mp hi)
  simp only [sessionAt, h1, h2, h3, h4, h5, h6, h7, h8, generate_session_id_congr _ _ h9]

theorem eventOracle_eq (o₁ o₂ : EventOracle)
    (h : ∀ n, o₁.poisK n = o₂.poisK n ∧ o₁.uK n = o₂.uK n ∧
      o₁.etK n = o₂.etK n ∧ o₁.pgK n = o₂.pgK n) :
    o₁ = o₂ := by
  cases o₁
  cases o₂
  simp only [EventOracle.mk.injEq]
  exact ⟨funext fun n => (h n).1, funext fun n => (h n).2.1,
    funext fun n => (h n).2.2.1, funext fun n => (h n).2.2.2⟩

/-- C2, amended: two runs that see the same random streams (the consequence of
the fixed seed 42), the same configuration, and additionally the same
wall-clock instant `now` produce identical users, sessions and events tables.
Without the shared `now`, determinism fails (see the counterexample): the code
re-reads `datetime.now()` and bakes it into signup dates and session windows. -/
theorem run_deterministic (uo₁ uo₂ : UserOracle) (so₁ so₂ : SessOracle)
    (eo₁ eo₂ : EventOracle) (now : ℚ)
    (hu : ∀ i < NUM_USERS, uo₁.signupK i = uo₂.signupK i ∧ uo₁.countryK i = uo₂.countryK i ∧
      uo₁.planK i = uo₂.planK i ∧ uo₁.activeK i = uo₂.activeK i)
    (hs : ∀ i < NUM_SESSIONS, so₁.userK i = so₂.userK i ∧ so₁.dayK i = so₂.dayK i ∧
      so₁.hourK i = so₂.hourK i ∧ so₁.minuteK i = so₂.minuteK i ∧ so₁.secondK i = so₂.secondK i ∧
      so₁.durK i = so₂.durK i ∧ so₁.expDraw i = so₂.expDraw i ∧ so₁.devK i = so₂.devK i ∧
      ∀ j < 16, so₁.sidK i j = so₂.sidK i j)
    (he : ∀ n, eo₁.poisK n = eo₂.poisK n ∧ eo₁.uK n = eo₂.uK n ∧
      eo₁.etK n = eo₂.etK n ∧ eo₁.pgK n = eo₂.pgK n) :
    generate_users uo₁ now = generate_users uo₂ now ∧
    generate_sessions (generate_users uo₁ now) so₁ now
      = generate_sessions (generate_users uo₂ now) so₂ now ∧
    generate_events (generate_users uo₁ now)
        (generate_sessions (generate_users uo₁ now) so₁ now) eo₁
      = generate_events (generate_users uo₂ now)
        (generate_sessions (generate_users uo₂ now) so₂ now) eo₂ := by
  have h1 : generate_users uo₁ now = generate_users uo₂ now :=
    generate_users_congr uo₁ uo₂ now hu
  have h2 : generate_sessions (generate_users uo₁ now) so₁ now
      = generate_sessions (generate_users uo₂ now) so₂ now := by
    rw [h1]
    exact generate_sessions_congr (generate_users uo₂ now) so₁ so₂ now hs
  have h3 : eo₁ = eo₂ := eventOracle_eq eo₁ eo₂ he
  exact ⟨h1, h2, by
    rw [h1, h3, generate_sessions_congr (generate_users uo₂ now) so₁ so₂ now hs]⟩

/-- Witness for C2's amended theorem: both runs use the all-zero streams and
wall-clock instant 0. -/
theorem run_deterministic_witness :
    generate_users uo0 0 = generate_users uo0 0 ∧
    generate_sessions (generate_users uo0 0) so0 0
      = generate_sessions (generate_users uo0 0) so0 0 ∧
    generate_events (generate_users uo0 0)
        (generate_sessions (generate_users uo0 0) so0 0) eo0
      = generate_events (generate_users uo0 0)
        (generate_sessions (generate_users uo0 0) so0 0) eo0 :=
  run_deterministic uo0 uo0 so0 so0 eo0 eo0 0
    (fun _ _ => ⟨rfl, rfl, rfl, rfl⟩)
    (fun _ _ => ⟨rfl, rfl, rfl, rfl, rfl, rfl, rfl, rfl, fun _ _ => rfl⟩)
    (fun _ => ⟨rfl, rfl, rfl, rfl⟩)

/-- C2, counterexample: feeding both runs identical random streams (same seed)
and identical configuration but starting them one day apart (`now = 0` versus
`now = 86400` seconds) yields different users tables — row 0's SIGNUP_DATE is
day 0 in the first run and day 1 in the second.  Independent runs execute at
different wall-clock times, so equality of seed and configuration alone does
not make the outputs byte-identical. -/
theorem users_differ_across_now : generate_users uo0 0 ≠ generate_users uo0 86400 := by
  intro h
  have h0 : (generate_users uo0 0)[0]? = (generate_users uo0 86400)[0]? := by rw [h]
  rw [generate_users_getElem? uo0 0 0 (by decide),
    generate_users_getElem? uo0 86400 0 (by decide)] at h0
  have hd : (userAt uo0 0 0).signup_date = (userAt uo0 86400 0).signup_date := by
    rw [Option.some.inj h0]
  have e1 : (userAt uo0 0 0).signup_date = 0 := by
    simp only [userAt, uo0, dateOf, pyRandint]
    norm_num
  have e2 : (userAt uo0 86400 0).signup_date = 1 := by
    simp only [userAt, uo0, dateOf, pyRandint]
    norm_num
  rw [e1, e2] at hd
  exact absurd hd (by decide)

/-! ### Closed forms for the capped event-generation loops -/

theorem innerLoop_eq (mk : Nat → Event) (n : Nat) :
    ∀ eid, eid ≤ NUM_EVENTS →
      innerLoop mk eid n
        = ((List.range (min n (NUM_EVENTS + 1 - eid))).map (fun j => mk (eid + j)),
           eid + min n (NUM_EVENTS + 1 - eid)) := by
  induction n with
  | zero =>
    intro eid h
    simp [innerLoop]
  | succ n ih =>
    intro eid h
    rw [innerLoop]
    by_cases hc : NUM_EVENTS < eid + 1
    · have h1 : min (n + 1) (NUM_EVENTS + 1 - eid) = 1 := by omega
      rw [if_pos hc, h1]
      rw [show List.range 1 = [0] from rfl]
      simp
    · rw [if_neg hc, ih (eid + 1) (by omega)]
      have h2 : min (n + 1) (NUM_EVENTS + 1 - eid)
          = min n (NUM_EVENTS + 1 - (eid + 1)) + 1 := by omega
      rw [h2]
      refine congrArg₂ Prod.mk ?_ (by omega)
      rw [List.range_succ_eq_map, List.map_cons, List.map_map]
      refine congrArg₂ List.cons rfl ?_
      refine List.map_congr_left (fun j _ => ?_)
      simp only [Function.comp_apply]
      exact congrArg mk (by omega)

theorem eventLoop_length (users : List User) (o : EventOracle) (l : List Session) :
    ∀ idx eid, eid ≤ NUM_EVENTS →
      (eventLoop users o l idx eid).length
        = min (plannedFrom o idx l) (NUM_EVENTS + 1 - eid) := by
  induction l with
  | nil =>
    intro idx eid h
    simp [eventLoop, plannedFrom]
  | cons s rest ih =>
    intro idx eid h
    simp only [eventLoop]
    rw [innerLoop_eq (mkEvent users o s) (numEventsInSession o idx s) eid h]
    simp only [plannedFrom]
    by_cases hc : NUM_EVENTS
        < eid + min (numEventsInSession o idx s) (NUM_EVENTS + 1 - eid)
    · rw [if_pos hc]
      simp only [List.length_map, List.length_range]
      omega
    · rw [if_neg hc]
      rw [List.length_append, List.length_map, List.length_range,
        ih (idx + 1) (eid + min (numEventsInSession o idx s) (NUM_EVENTS + 1 - eid))
          (by omega)]
      omega

theorem generate_events_length (users : List User) (sessions : List Session) (o : EventOracle) :
    (generate_events users sessions o).length
      = min (plannedFrom o 0 sessions) NUM_EVENTS := by
  have h := eventLoop_length users o sessions 0 1 (by decide)
  have h2 : NUM_EVENTS + 1 - 1 = NUM_EVENTS := by omega
  rw [h2] at h
  unfold generate_events
  rw [List.length_take, h]
  omega

/-- C1: the final events table has exactly `min (planned total) NUM_EVENTS`
rows — so its size never exceeds the cap, and whenever the cumulative
per-session counts (`PAGE_VIEWS` plus Poisson jitter, summed in iteration
order) reach or exceed the cap the table holds exactly `NUM_EVENTS` rows. -/
theorem events_count_capped (users : List User) (sessions : List Session) (o : EventOracle) :
    (generate_events users sessions o).length
      = min (plannedFrom o 0 sessions) NUM_EVENTS ∧
    (generate_events users sessions o).length ≤ NUM_EVENTS := by
  rw [generate_events_length users sessions o]
  omega

/-! ### Provenance: every generated event is built from a session in the list -/

theorem innerLoop_mem (mk : Nat → Event) (n : Nat) :
    ∀ eid ev, ev ∈ (innerLoop mk eid n).1 → ∃ e, ev = mk e := by
  induction n with
  | zero =>
    intro eid ev h
    simp [innerLoop] at h
  | succ n ih =>
    intro eid ev h
    simp only [innerLoop] at h
    by_cases hc : NUM_EVENTS < eid + 1
    · rw [if_pos hc] at h
      exact ⟨eid, List.mem_singleton.mp h⟩
    · rw [if_neg hc] at h
      rcases List.mem_cons.mp h with h | h
      · exact ⟨eid, h⟩
      · exact ih (eid + 1) ev h

theorem eventLoop_mem (users : List User) (o : EventOracle) (l : List Session) :
    ∀ idx eid ev, ev ∈ eventLoop users o l idx eid →
      ∃ s ∈ l, ∃ e, ev = mkEvent users o s e := by
  induction l with
  | nil =>
    intro idx eid ev h
    simp [eventLoop] at h
  | cons s rest ih =>
    intro idx eid ev h
    simp only [eventLoop] at h
    by_cases hc : NUM_EVENTS
        < (innerLoop (mkEvent users o s) eid (numEventsInSession o idx s)).2
    · rw [if_pos hc] at h
      obtain ⟨e, he⟩ := innerLoop_mem _ _ _ ev h
      exact ⟨s, List.mem_cons_self s rest, e, he⟩
    · rw [if_neg hc] at h
      rcases List.mem_append.mp h with h | h
      · obtain ⟨e, he⟩ := innerLoop_mem _ _ _ ev h
        exact ⟨s, List.mem_cons_self s rest, e, he⟩
      · obtain ⟨t, ht, e, he⟩ := ih _ _ ev h
        exact ⟨t, List.mem_cons_of_mem s ht, e, he⟩

theorem generate_events_singleton (users : List User) (o : EventOracle) (s : Session)
    (h : numEventsInSession o 0 s = 1) :
    generate_events users [s] o = [mkEvent users o s 1] := by
  have hinner : innerLoop (mkEvent users o s) 1 1 = ([mkEvent users o s 1], 2) := by
    rw [innerLoop]
    rw [if_neg (by norm_num [NUM_EVENTS])]
    rfl
  unfold generate_events
  simp only [eventLoop, h, hinner]
  norm_num [NUM_EVENTS, eventLoop]

/-- C3: every generated event's timestamp is `start + u * (end - start)` for a
uniform draw `u ∈ [0, 1)` over its parent session's span, so it lies in the
half-open interval `[start_time, end_time)` of that session (sessions with
positive duration; the generated ones always have it, by C6). -/
theorem event_timestamp_in_session (users : List User) (sessions : List Session)
    (o : EventOracle)
    (hu : ∀ n, 0 ≤ o.uK n ∧ o.uK n < 1)
    (hd : ∀ s ∈ sessions, s.session_start < s.session_end)
    (ev : Event) (hev : ev ∈ generate_events users sessions o) :
    ∃ s ∈ sessions, ev.session_id = s.session_id ∧
      s.session_start ≤ ev.event_timestamp ∧ ev.event_timestamp < s.session_end := by
  have hev' : ev ∈ eventLoop users o sessions 0 1 := List.take_subset NUM_EVENTS _ hev
  obtain ⟨s, hs, e, rfl⟩ := eventLoop_mem users o sessions 0 1 ev hev'
  have h0 : (0 : ℚ) ≤ o.uK e := (hu e).1
  have h1 : o.uK e < 1 := (hu e).2
  have hdp : (0 : ℚ) < s.session_end - s.session_start := by linarith [hd s hs]
  refine ⟨s, hs, rfl, ?_, ?_⟩
  · simp only [mkEvent]
    nlinarith [mul_nonneg h0 hdp.le]
  · simp only [mkEvent]
    nlinarith [mul_pos (by linarith : (0 : ℚ) < 1 - o.uK e) hdp]

/-- Witness for C3 at the concrete input: the single session `s1` (span
`[0, 60)`), the all-zero event oracle, and the single generated event. -/
theorem event_timestamp_in_session_witness :
    s1.session_start ≤ (mkEvent [] eo0 s1 1).event_timestamp ∧
    (mkEvent [] eo0 s1 1).event_timestamp < s1.session_end := by
  obtain ⟨s, hs, _, hlo, hhi⟩ := event_timestamp_in_session [] [s1] eo0
    (fun n => ⟨le_refl 0, show (0 : ℚ) < 1 by norm_num⟩)
    (fun s hs => by rw [List.mem_singleton.mp hs]; norm_num [s1])
    (mkEvent [] eo0 s1 1)
    (by rw [generate_events_singleton [] eo0 s1 (by decide)]
        exact List.mem_singleton.mpr rfl)
  rw [List.mem_singleton.mp hs] at hlo hhi
  exact ⟨hlo, hhi⟩

/-- C5: every generated event is built from a session in the sessions table:
its SESSION_ID, USER_ID and DEVICE_TYPE are copied from that session, and its
COUNTRY is the country of a user carrying the event's USER_ID, denormalised
through the precomputed USER_ID-to-COUNTRY lookup. -/
theorem event_referential_integrity (users : List User) (sessions : List Session)
    (o : EventOracle)
    (hs : ∀ s ∈ sessions, s.user_id ∈ users.map User.user_id)
    (ev : Event) (hev : ev ∈ generate_events users sessions o) :
    ∃ s ∈ sessions, ev.session_id = s.session_id ∧ ev.user_id = s.user_id ∧
      ev.device_type = s.device_type ∧
      ∃ u ∈ users, u.user_id = ev.user_id ∧ ev.country = u.country := by
  have hev' : ev ∈ eventLoop users o sessions 0 1 := List.take_subset NUM_EVENTS _ hev
  obtain ⟨s, hsm, e, rfl⟩ := eventLoop_mem users o sessions 0 1 ev hev'
  refine ⟨s, hsm, rfl, rfl, rfl, ?_⟩
  obtain ⟨u, hum, huid⟩ := List.mem_map.mp (hs s hsm)
  have hsome : (users.reverse.find? (fun v => v.user_id == s.user_id)).isSome := by
    rw [List.find?_isSome]
    exact ⟨u, List.mem_reverse.mpr hum, by simp [huid]⟩
  obtain ⟨v, hv⟩ := Option.isSome_iff_exists.mp hsome
  have hvm : v ∈ users := List.mem_reverse.mp (List.mem_of_find?_eq_some hv)
  have hvid : v.user_id = s.user_id := by simpa using List.find?_some hv
  refine ⟨v, hvm, hvid, ?_⟩
  simp only [mkEvent, user_country_map, hv, Option.map_some', Option.getD_some]

/-- Witness for C5 at the concrete input: the one-user population `[u1]`, the
single session `[s1]` referencing it, and the single generated event. -/
theorem event_referential_integrity_witness :
    (mkEvent [u1] eo0 s1 1).session_id = s1.session_id ∧
    (mkEvent [u1] eo0 s1 1).user_id = s1.user_id ∧
    (mkEvent [u1] eo0 s1 1).device_type = s1.device_type ∧
    (mkEvent [u1] eo0 s1 1).country = u1.country := by
  obtain ⟨s, hsm, h1, h2, h3, u, hum, _, h4⟩ := event_referential_integrity [u1] [s1] eo0
    (fun s hs => by rw [List.mem_singleton.mp hs]; decide)
    (mkEvent [u1] eo0 s1 1)
    (by rw [generate_events_singleton [u1] eo0 s1 (by decide)]
        exact List.mem_singleton.mpr rfl)
  rw [List.mem_singleton.mp hsm] at h1 h2 h3
  rw [List.mem_singleton.mp hum] at h4
  exact ⟨h1, h2, h3, h4⟩

/-! ### The uncapped runs decompose into per-session blocks -/

theorem range'_append_comm (s m n : Nat) :
    List.range' s m ++ List.range' (s + m) n = List.range' s (m + n) := by
  have h := List.range'_append s m n 1
  rw [Nat.add_comm n m] at h
  simpa using h

theorem eventFlatSpec_nil_of_planned_zero (users : List User) (o : EventOracle)
    (l : List Session) :
    ∀ idx eid, plannedFrom o idx l = 0 → eventFlatSpec users o l idx eid = [] := by
  induction l with
  | nil =>
    intro idx eid _
    rfl
  | cons s rest ih =>
    intro idx eid h
    simp only [plannedFrom] at h
    have h1 : numEventsInSession o idx s = 0 := by omega
    simp only [eventFlatSpec, h1, ih (idx + 1) (eid + 0) (by omega)]
    simp

theorem eventLoop_eq_flat (users : List User) (o : EventOracle) (l : List Session) :
    ∀ idx eid, eid + plannedFrom o idx l ≤ NUM_EVENTS + 1 →
      eventLoop users o l idx eid = eventFlatSpec users o l idx eid := by
  induction l with
  | nil =>
    intro idx eid _
    rfl
  | cons s rest ih =>
    intro idx eid h
    simp only [plannedFrom] at h
    by_cases heid : eid ≤ NUM_EVENTS
    · simp only [eventLoop, eventFlatSpec]
      rw [innerLoop_eq (mkEvent users o s) (numEventsInSession o idx s) eid heid]
      have hmin : min (numEventsInSession o idx s) (NUM_EVENTS + 1 - eid)
          = numEventsInSession o idx s := by omega
      rw [hmin]
      by_cases hc : NUM_EVENTS < eid + numEventsInSession o idx s
      · rw [if_pos hc]
        rw [eventFlatSpec_nil_of_planned_zero users o rest (idx + 1)
          (eid + numEventsInSession o idx s) (by omega)]
        simp
      · rw [if_neg hc]
        rw [ih (idx + 1) (eid + numEventsInSession o idx s) (by omega)]
    · have hn : numEventsInSession o idx s = 0 := by omega
      have hrest : plannedFrom o (idx + 1) rest = 0 := by omega
      simp only [eventLoop, eventFlatSpec, hn, innerLoop]
      rw [if_pos (by omega : NUM_EVENTS < eid)]
      rw [eventFlatSpec_nil_of_planned_zero users o rest (idx + 1) (eid + 0) hrest]
      simp

theorem eventFlatSpec_ids (users : List User) (o : EventOracle) (l : List Session) :
    ∀ idx eid, (eventFlatSpec users o l idx eid).map Event.event_id
      = List.range' eid (plannedFrom o idx l) := by
  induction l with
  | nil =>
    intro idx eid
    rfl
  | cons s rest ih =>
    intro idx eid
    simp only [eventFlatSpec, plannedFrom, List.map_append, List.map_map,
      ih (idx + 1) (eid + numEventsInSession o idx s)]
    rw [show (Event.event_id ∘ fun j => mkEvent users o s (eid + j))
        = (fun j => eid + j) from rfl]
    rw [← List.range'_eq_map_range]
    exact range'_append_comm eid (numEventsInSession o idx s) (plannedFrom o (idx + 1) rest)

/-- C9: when the cumulative planned total stays within the cap, the events
table is exactly the concatenation, over sessions in their generated order, of
one block per session holding `PAGE_VIEWS + poisson jitter` events, and the
EVENT_ID column is the sequence `1, 2, ...` over the whole table. -/
theorem events_per_session_decomposition (users : List User) (sessions : List Session)
    (o : EventOracle) (h : plannedFrom o 0 sessions ≤ NUM_EVENTS) :
    generate_events users sessions o = eventFlatSpec users o sessions 0 1 ∧
    (generate_events users sessions o).map Event.event_id
      = List.range' 1 (plannedFrom o 0 sessions) := by
  have hflat : eventLoop users o sessions 0 1 = eventFlatSpec users o sessions 0 1 :=
    eventLoop_eq_flat users o sessions 0 1 (by omega)
  have hlen : (eventLoop users o sessions 0 1).length = plannedFrom o 0 sessions := by
    rw [eventLoop_length users o sessions 0 1 (by decide)]
    omega
  have htake : generate_events users sessions o = eventLoop users o sessions 0 1 := by
    unfold generate_events
    exact List.take_of_length_le (by omega)
  rw [htake, hflat]
  exact ⟨rfl, eventFlatSpec_ids users o sessions 0 1⟩

/-- Witness for C9 at the concrete input: the single session `s1` with one
page view and zero jitter, planned total 1, far below the cap. -/
theorem events_per_session_decomposition_witness :
    generate_events [] [s1] eo0 = eventFlatSpec [] eo0 [s1] 0 1 ∧
    (generate_events [] [s1] eo0).map Event.event_id
      = List.range' 1 (plannedFrom eo0 0 [s1]) :=
  events_per_session_decomposition [] [s1] eo0 (by decide)

/-! ### Prefix counting for the cap-budget claim -/

theorem plannedFrom_take_succ (o : EventOracle) (l : List Session) :
    ∀ k idx (hk : k < l.length),
      plannedFrom o idx (l.take (k + 1))
        = plannedFrom o idx (l.take k)
          + numEventsInSession o (idx + k) (l.get ⟨k, hk⟩) := by
  induction l with
  | nil =>
    intro k idx hk
    simp at hk
  | cons s rest ih =>
    intro k idx hk
    cases k with
    | zero =>
      simp [plannedFrom]
    | succ k =>
      simp only [List.take_succ_cons, plannedFrom, List.get_cons_succ]
      rw [ih k (idx + 1) (by simpa using hk)]
      have harith : idx + 1 + k = idx + (k + 1) := by omega
      rw [harith]
      omega

/-- C10: a session reached by the event loop while cap budget remains always
contributes at least one event — its planned count `PAGE_VIEWS + jitter` is at
least 1 (page views are at least 1 and the Poisson jitter is nonnegative), so
running the generator on one more session strictly grows the events table. -/
theorem reached_session_contributes (users : List User) (sessions : List Session)
    (o : EventOracle) (k : Nat)
    (hpv : ∀ s ∈ sessions, 1 ≤ s.page_views)
    (hk : k < sessions.length)
    (hbudget : plannedFrom o 0 (sessions.take k) < NUM_EVENTS) :
    1 ≤ numEventsInSession o k (sessions.get ⟨k, hk⟩) ∧
    (generate_events users (sessions.take k) o).length
      < (generate_events users (sessions.take (k + 1)) o).length := by
  have hmem : sessions.get ⟨k, hk⟩ ∈ sessions := List.get_mem sessions k hk
  have h1 : 1 ≤ numEventsInSession o k (sessions.get ⟨k, hk⟩) := by
    have := hpv _ hmem
    unfold numEventsInSession
    omega
  refine ⟨h1, ?_⟩
  rw [generate_events_length users (sessions.take k) o,
    generate_events_length users (sessions.take (k + 1)) o,
    plannedFrom_take_succ o sessions k 0 hk]
  simp only [Nat.zero_add]
  omega

/-- Witness for C10 at the concrete input: the single session `s1` (one page
view, zero jitter), position 0, with the full cap budget remaining. -/
theorem reached_session_contributes_witness :
    1 ≤ numEventsInSession eo0 0 s1 ∧
    (generate_events [] ([s1].take 0) eo0).length
      < (generate_events [] ([s1].take (0 + 1)) eo0).length :=
  reached_session_contributes [] [s1] eo0 0 (by decide) (by decide) (by decide)

end GenData
